import Mathlib

/-!
Verification of the incremental Merkle tree accumulator in `src/src/lib.rs`
(a Soroban contract exposing a depth-32 append-only Merkle tree).

The development shallowly embeds the Rust source:
* `keccakBytes` models `tiny_keccak::Keccak::v256` on a byte list
  (bytes are `Nat` values below 256, lanes are `Nat` values below 2^64);
* `MerkleTree.keccak256`, `MerkleTree.insert`, `MerkleTree.root_with_ctx`,
  `MerkleTree.root`, `MerkleTree.branch_root` and `MerkleTree.zero_hashes`
  mirror the methods of the same names;
* the `Contract` functions mirror the storage-backed entry points.
-/

namespace MerkleSpec

/-- The 24 Keccak-f[1600] round constants. -/
def keccakRC : List Nat := [
  0x0000000000000001, 0x0000000000008082, 0x800000000000808a, 0x8000000080008000,
  0x000000000000808b, 0x0000000080000001, 0x8000000080008081, 0x8000000000008009,
  0x000000000000008a, 0x0000000000000088, 0x0000000080008009, 0x000000008000000a,
  0x000000008000808b, 0x800000000000008b, 0x8000000000008089, 0x8000000000008003,
  0x8000000000008002, 0x8000000000000080, 0x000000000000800a, 0x800000008000000a,
  0x8000000080008081, 0x8000000000008080, 0x0000000080000001, 0x8000000080008008]

/-- Rotate a 64-bit lane value left by `k` bits. -/
def rotl64 (v k : Nat) : Nat := ((v <<< k) ||| (v >>> (64 - k))) % (2 ^ 64)

/-- One Keccak-f round (theta, rho, pi, chi, iota) on the 25-lane state,
stored as a list with lane (x, y) at position x + 5 * y. -/
def keccakRound (rc : Nat) (s : List Nat) : List Nat :=
  match s with
  | [a00, a10, a20, a30, a40, a01, a11, a21, a31, a41, a02, a12, a22, a32, a42, a03, a13, a23, a33, a43, a04, a14, a24, a34, a44] =>
    let c0 := a00 ^^^ a01 ^^^ a02 ^^^ a03 ^^^ a04
    let c1 := a10 ^^^ a11 ^^^ a12 ^^^ a13 ^^^ a14
    let c2 := a20 ^^^ a21 ^^^ a22 ^^^ a23 ^^^ a24
    let c3 := a30 ^^^ a31 ^^^ a32 ^^^ a33 ^^^ a34
    let c4 := a40 ^^^ a41 ^^^ a42 ^^^ a43 ^^^ a44
    let d0 := c4 ^^^ rotl64 c1 1
    let d1 := c0 ^^^ rotl64 c2 1
    let d2 := c1 ^^^ rotl64 c3 1
    let d3 := c2 ^^^ rotl64 c4 1
    let d4 := c3 ^^^ rotl64 c0 1
    let b00 := a00 ^^^ d0
    let b10 := rotl64 (a11 ^^^ d1) 44
    let b20 := rotl64 (a22 ^^^ d2) 43
    let b30 := rotl64 (a33 ^^^ d3) 21
    let b40 := rotl64 (a44 ^^^ d4) 14
    let b01 := rotl64 (a30 ^^^ d3) 28
    let b11 := rotl64 (a41 ^^^ d4) 20
    let b21 := rotl64 (a02 ^^^ d0) 3
    let b31 := rotl64 (a13 ^^^ d1) 45
    let b41 := rotl64 (a24 ^^^ d2) 61
    let b02 := rotl64 (a10 ^^^ d1) 1
    let b12 := rotl64 (a21 ^^^ d2) 6
    let b22 := rotl64 (a32 ^^^ d3) 25
    let b32 := rotl64 (a43 ^^^ d4) 8
    let b42 := rotl64 (a04 ^^^ d0) 18
    let b03 := rotl64 (a40 ^^^ d4) 27
    let b13 := rotl64 (a01 ^^^ d0) 36
    let b23 := rotl64 (a12 ^^^ d1) 10
    let b33 := rotl64 (a23 ^^^ d2) 15
    let b43 := rotl64 (a34 ^^^ d3) 56
    let b04 := rotl64 (a20 ^^^ d2) 62
    let b14 := rotl64 (a31 ^^^ d3) 55
    let b24 := rotl64 (a42 ^^^ d4) 39
    let b34 := rotl64 (a03 ^^^ d0) 41
    let b44 := rotl64 (a14 ^^^ d1) 2
    [((b00 ^^^ ((b10 ^^^ 0xffffffffffffffff) &&& b20)) ^^^ rc),
     (b10 ^^^ ((b20 ^^^ 0xffffffffffffffff) &&& b30)),
     (b20 ^^^ ((b30 ^^^ 0xffffffffffffffff) &&& b40)),
     (b30 ^^^ ((b40 ^^^ 0xffffffffffffffff) &&& b00)),
     (b40 ^^^ ((b00 ^^^ 0xffffffffffffffff) &&& b10)),
     (b01 ^^^ ((b11 ^^^ 0xffffffffffffffff) &&& b21)),
     (b11 ^^^ ((b21 ^^^ 0xffffffffffffffff) &&& b31)),
     (b21 ^^^ ((b31 ^^^ 0xffffffffffffffff) &&& b41)),
     (b31 ^^^ ((b41 ^^^ 0xffffffffffffffff) &&& b01)),
     (b41 ^^^ ((b01 ^^^ 0xffffffffffffffff) &&& b11)),
     (b02 ^^^ ((b12 ^^^ 0xffffffffffffffff) &&& b22)),
     (b12 ^^^ ((b22 ^^^ 0xffffffffffffffff) &&& b32)),
     (b22 ^^^ ((b32 ^^^ 0xffffffffffffffff) &&& b42)),
     (b32 ^^^ ((b42 ^^^ 0xffffffffffffffff) &&& b02)),
     (b42 ^^^ ((b02 ^^^ 0xffffffffffffffff) &&& b12)),
     (b03 ^^^ ((b13 ^^^ 0xffffffffffffffff) &&& b23)),
     (b13 ^^^ ((b23 ^^^ 0xffffffffffffffff) &&& b33)),
     (b23 ^^^ ((b33 ^^^ 0xffffffffffffffff) &&& b43)),
     (b33 ^^^ ((b43 ^^^ 0xffffffffffffffff) &&& b03)),
     (b43 ^^^ ((b03 ^^^ 0xffffffffffffffff) &&& b13)),
     (b04 ^^^ ((b14 ^^^ 0xffffffffffffffff) &&& b24)),
     (b14 ^^^ ((b24 ^^^ 0xffffffffffffffff) &&& b34)),
     (b24 ^^^ ((b34 ^^^ 0xffffffffffffffff) &&& b44)),
     (b34 ^^^ ((b44 ^^^ 0xffffffffffffffff) &&& b04)),
     (b44 ^^^ ((b04 ^^^ 0xffffffffffffffff) &&& b14))]
  | _ => []

/-- The full Keccak-f[1600] permutation: 24 rounds. -/
def keccakP (s : List Nat) : List Nat :=
  keccakRC.foldl (fun t rc => keccakRound rc t) s

/-- Multi-rate padding for rate 136 bytes with the Keccak delimiter 0x01. -/
def keccakPad (msg : List Nat) : List Nat :=
  let q := 136 - msg.length % 136
  if q = 1 then msg ++ [0x81] else msg ++ 0x01 :: (List.replicate (q - 2) 0 ++ [0x80])

/-- Pack bytes into 64-bit lanes, little-endian. -/
def toLanes : List Nat → List Nat
  | b0 :: b1 :: b2 :: b3 :: b4 :: b5 :: b6 :: b7 :: rest =>
      (b0 + 2 ^ 8 * b1 + 2 ^ 16 * b2 + 2 ^ 24 * b3 + 2 ^ 32 * b4 +
        2 ^ 40 * b5 + 2 ^ 48 * b6 + 2 ^ 56 * b7) :: toLanes rest
  | _ => []

/-- XOR a block of lanes into the front of the state. -/
def xorInto : List Nat → List Nat → List Nat
  | s, [] => s
  | [], _ => []
  | h :: t, b :: bs => (h ^^^ b) :: xorInto t bs

/-- Absorb the (already padded) byte stream, 136 bytes per block.
The fuel argument only forces structural recursion; `absorbBlocks` passes
enough fuel (one unit per byte) to consume every block. -/
def absorbBlocksAux : Nat → List Nat → List Nat → List Nat
  | 0, s, _ => s
  | _, s, [] => s
  | fuel + 1, s, b :: rest =>
      absorbBlocksAux fuel (keccakP (xorInto s (toLanes (List.take 136 (b :: rest)))))
        (List.drop 136 (b :: rest))

/-- Absorb the (already padded) byte stream, 136 bytes per block. -/
def absorbBlocks (s : List Nat) (bytes : List Nat) : List Nat :=
  absorbBlocksAux bytes.length s bytes

/-- Unpack a lane into its 8 little-endian bytes. -/
def laneBytes (v : Nat) : List Nat :=
  [v % 256, (v >>> 8) % 256, (v >>> 16) % 256, (v >>> 24) % 256,
   (v >>> 32) % 256, (v >>> 40) % 256, (v >>> 48) % 256, (v >>> 56) % 256]

/-- Keccak-256 of a byte list: absorb at rate 136, squeeze 32 bytes. -/
def keccakBytes (msg : List Nat) : List Nat :=
  let s := absorbBlocks (List.replicate 25 0) (keccakPad msg)
  (List.take 4 s).foldr (fun v acc => laneBytes v ++ acc) []

/-- A 32-byte hash value, modelled as its list of bytes. -/
abbrev Hash := List Nat

/-- The all-zero 32-byte value `[0u8; 32]`. -/
def zero32 : Hash := List.replicate 32 0

/-- Model of `const TREE_DEPTH: usize = 32`. -/
def TREE_DEPTH : Nat := 32

/-- Model of `const MAX_LEAVES: u64 = 2^32 - 1`. -/
def MAX_LEAVES : Nat := 2 ^ 32 - 1

/-- The contract error enum. -/
inductive Error where
  | MerkleTreeFull
  | MerkleTreeInvalidVecSize
deriving DecidableEq, Repr

/-- The `MerkleTree` struct: the branch vector and the leaf counter. -/
structure MerkleTree where
  branch : List Hash
  count : Nat
deriving DecidableEq, Repr

/-- Model of `MerkleTree::keccak256`: hash the concatenation of the 32-byte items. -/
def MerkleTree.keccak256 (items : List Hash) : Hash :=
  keccakBytes items.flatten

/-- The pair-combination primitive: `keccak256(vec![a, b])`, as used by
`insert`, `root_with_ctx` and `branch_root`. -/
def commit (a b : Hash) : Hash := MerkleTree.keccak256 [a, b]

/-- Outcome of a call to `MerkleTree::insert`: normal return, a declared
contract error raised by `assert_with_error!`, or a host trap from
`.expect(..)`, an out-of-bounds `Vec::insert`, or the final `assert!(false)`. -/
inductive InsertResult where
  | ok (tree : MerkleTree)
  | err (e : Error)
  | trap
deriving DecidableEq, Repr

/-- The loop body of `MerkleTree::insert`, iterating `i` over `0..32` (the
fuel counts the remaining iterations, so `insertLoop` passes 32).  At a set
bit of `size` the node is stored (`Vec::set` when slot `i` exists,
`Vec::insert` otherwise, which traps when `i` exceeds the vector length) and
the loop returns; at a clear bit the node is combined with `branch[i]`
(trapping when that slot is missing, like `.expect`) and the loop continues.
Exhausting all 32 iterations models reaching `assert!(false)`. -/
def insertLoopAux (branch : List Hash) : Nat → Hash → Nat → Nat → Option (List Hash)
  | 0, _, _, _ => none
  | fuel + 1, node, size, i =>
    if size % 2 = 1 then
      match branch.get? i with
      | none => if i ≤ branch.length then some (List.insertIdx i node branch) else none
      | some _ => some (branch.set i node)
    else
      match branch.get? i with
      | none => none
      | some leaf => insertLoopAux branch fuel (commit leaf node) (size / 2) (i + 1)

/-- The `for i in 0..TREE_DEPTH` loop of `MerkleTree::insert`. -/
def insertLoop (branch : List Hash) (node : Hash) (size : Nat) : Option (List Hash) :=
  insertLoopAux branch 32 node size 0

/-- Model of `MerkleTree::insert`: capacity check, branch-length check, increment the
counter, then run the carry loop. -/
def MerkleTree.insert (t : MerkleTree) (node : Hash) : InsertResult :=
  if ¬ t.count < MAX_LEAVES then .err .MerkleTreeFull
  else if ¬ t.branch.length ≤ TREE_DEPTH then .err .MerkleTreeInvalidVecSize
  else
    match insertLoop t.branch node (t.count + 1) with
    | some b => .ok ⟨b, t.count + 1⟩
    | none => .trap

/-- The `for i in 0..TREE_DEPTH` loop of `MerkleTree::root_with_ctx`:
`_current` starts at zero bytes; bit `i` of `count` chooses between
`keccak256(branch[i] ++ current)` (missing slots default to zero bytes,
like `unwrap_or`) and `keccak256(current ++ zeroes[i])`. -/
def rootLoop (count : Nat) (branch zeroes : List Hash) : Hash :=
  (List.range 32).foldl
    (fun current i =>
      let next := (branch.get? i).getD zero32
      if (count >>> i) &&& 1 = 1 then commit next current
      else commit current ((zeroes.get? i).getD zero32))
    zero32

/-- Model of `MerkleTree::root_with_ctx`: the length guard (whose success makes every
`_zeroes.get_unchecked(i)` in the loop in bounds), then the folding loop. -/
def MerkleTree.root_with_ctx (t : MerkleTree) (zeroes : List Hash) : Except Error Hash :=
  if ¬ (t.branch.length ≤ TREE_DEPTH ∧ zeroes.length = TREE_DEPTH) then
    .error .MerkleTreeInvalidVecSize
  else .ok (rootLoop t.count t.branch zeroes)

/-- The hardcoded table from `MerkleTree::zero_hashes`, in index order. -/
def MerkleTree.zero_hashes : List Hash := [
  [0, 0, 0, 0, 0, 0, 0, 0, 0, 0, 0, 0, 0, 0, 0, 0, 0, 0, 0, 0, 0, 0, 0, 0, 0, 0, 0, 0, 0, 0, 0, 0],
  [173, 50, 40, 182, 118, 247, 211, 205, 66, 132, 165, 68, 63, 23, 241, 150, 43, 54, 228, 145, 179, 10, 64, 178, 64, 88, 73, 229, 151, 186, 95, 181],
  [180, 193, 25, 81, 149, 124, 111, 143, 100, 44, 74, 246, 28, 214, 178, 70, 64, 254, 198, 220, 127, 198, 7, 238, 130, 6, 169, 158, 146, 65, 13, 48],
  [33, 221, 185, 163, 86, 129, 92, 63, 172, 16, 38, 182, 222, 197, 223, 49, 36, 175, 186, 219, 72, 92, 155, 165, 163, 227, 57, 138, 4, 183, 186, 133],
  [229, 135, 105, 179, 42, 27, 234, 241, 234, 39, 55, 90, 68, 9, 90, 13, 31, 182, 100, 206, 45, 211, 88, 231, 252, 191, 183, 140, 38, 161, 147, 68],
  [14, 176, 30, 191, 201, 237, 39, 80, 12, 212, 223, 201, 121, 39, 45, 31, 9, 19, 204, 159, 102, 84, 13, 126, 128, 5, 129, 17, 9, 225, 207, 45],
  [136, 124, 34, 189, 135, 80, 211, 64, 22, 172, 60, 102, 181, 255, 16, 45, 172, 221, 115, 246, 176, 20, 231, 16, 181, 30, 128, 34, 175, 154, 25, 104],
  [255, 215, 1, 87, 228, 128, 99, 252, 51, 201, 122, 5, 15, 127, 100, 2, 51, 191, 100, 108, 201, 141, 149, 36, 198, 185, 43, 207, 58, 181, 111, 131],
  [152, 103, 204, 95, 127, 25, 107, 147, 186, 225, 226, 126, 99, 32, 116, 36, 69, 210, 144, 242, 38, 56, 39, 73, 139, 84, 254, 197, 57, 247, 86, 175],
  [206, 250, 212, 229, 8, 192, 152, 185, 167, 225, 216, 254, 177, 153, 85, 251, 2, 186, 150, 117, 88, 80, 120, 113, 9, 105, 211, 68, 15, 80, 84, 224],
  [249, 220, 62, 127, 224, 22, 224, 80, 239, 242, 96, 51, 79, 24, 165, 212, 254, 57, 29, 130, 9, 35, 25, 245, 150, 79, 46, 46, 183, 193, 195, 165],
  [248, 177, 58, 73, 226, 130, 246, 9, 195, 23, 168, 51, 251, 141, 151, 109, 17, 81, 124, 87, 29, 18, 33, 162, 101, 210, 90, 247, 120, 236, 248, 146],
  [52, 144, 198, 206, 235, 69, 10, 236, 220, 130, 226, 130, 147, 3, 29, 16, 199, 215, 59, 248, 94, 87, 191, 4, 26, 151, 54, 10, 162, 197, 217, 156],
  [193, 223, 130, 217, 196, 184, 116, 19, 234, 226, 239, 4, 143, 148, 180, 211, 85, 76, 234, 115, 217, 43, 15, 122, 249, 110, 2, 113, 198, 145, 226, 187],
  [92, 103, 173, 215, 198, 202, 243, 2, 37, 106, 222, 223, 122, 177, 20, 218, 10, 207, 232, 112, 212, 73, 163, 164, 137, 247, 129, 214, 89, 232, 190, 204],
  [218, 123, 206, 159, 78, 134, 24, 182, 189, 47, 65, 50, 206, 121, 140, 220, 122, 96, 231, 225, 70, 10, 114, 153, 227, 198, 52, 42, 87, 150, 38, 210],
  [39, 51, 229, 15, 82, 110, 194, 250, 25, 162, 43, 49, 232, 237, 80, 242, 60, 209, 253, 249, 76, 145, 84, 237, 58, 118, 9, 162, 241, 255, 152, 31],
  [225, 211, 181, 200, 7, 178, 129, 228, 104, 60, 198, 214, 49, 92, 249, 91, 154, 222, 134, 65, 222, 252, 179, 35, 114, 241, 193, 38, 227, 152, 239, 122],
  [90, 45, 206, 10, 138, 127, 104, 187, 116, 86, 15, 143, 113, 131, 124, 44, 46, 187, 203, 247, 255, 251, 66, 174, 24, 150, 241, 63, 124, 116, 121, 160],
  [180, 106, 40, 182, 245, 85, 64, 248, 148, 68, 246, 61, 224, 55, 142, 61, 18, 27, 224, 158, 6, 204, 157, 237, 28, 32, 230, 88, 118, 211, 106, 160],
  [198, 94, 150, 69, 100, 71, 134, 182, 32, 226, 221, 42, 214, 72, 221, 252, 191, 74, 126, 91, 26, 58, 78, 207, 231, 246, 70, 103, 163, 240, 183, 226],
  [244, 65, 133, 136, 237, 53, 162, 69, 140, 255, 235, 57, 185, 61, 38, 241, 141, 42, 177, 59, 220, 230, 174, 229, 142, 123, 153, 53, 158, 194, 223, 217],
  [90, 156, 22, 220, 0, 214, 239, 24, 183, 147, 58, 111, 141, 198, 92, 203, 85, 102, 113, 56, 119, 111, 125, 234, 16, 16, 112, 220, 135, 150, 227, 119],
  [77, 248, 79, 64, 174, 12, 130, 41, 208, 214, 6, 158, 92, 143, 57, 167, 194, 153, 103, 122, 9, 211, 103, 252, 123, 5, 227, 188, 56, 14, 230, 82],
  [205, 199, 37, 149, 247, 76, 123, 16, 67, 208, 225, 255, 186, 183, 52, 100, 140, 131, 141, 251, 5, 39, 217, 113, 182, 2, 188, 33, 108, 150, 25, 239],
  [10, 191, 90, 201, 116, 161, 237, 87, 244, 5, 10, 165, 16, 221, 156, 116, 245, 8, 39, 123, 57, 215, 151, 59, 178, 223, 204, 197, 238, 176, 97, 141],
  [184, 205, 116, 4, 111, 243, 55, 240, 167, 191, 44, 142, 3, 225, 15, 100, 44, 24, 134, 121, 141, 113, 128, 106, 177, 232, 136, 217, 229, 238, 135, 208],
  [131, 140, 86, 85, 203, 33, 198, 203, 131, 49, 59, 90, 99, 17, 117, 223, 244, 150, 55, 114, 204, 233, 16, 129, 136, 179, 74, 200, 124, 129, 196, 30],
  [102, 46, 228, 221, 45, 215, 178, 188, 112, 121, 97, 177, 230, 70, 196, 4, 118, 105, 220, 182, 88, 79, 13, 141, 119, 13, 175, 93, 126, 125, 235, 46],
  [56, 138, 178, 14, 37, 115, 209, 113, 168, 129, 8, 231, 157, 130, 14, 152, 242, 108, 11, 132, 170, 139, 47, 74, 164, 150, 141, 187, 129, 142, 163, 34],
  [147, 35, 124, 80, 186, 117, 238, 72, 95, 76, 34, 173, 242, 247, 65, 64, 11, 223, 141, 106, 156, 199, 223, 126, 202, 229, 118, 34, 22, 101, 215, 53],
  [132, 72, 129, 139, 180, 174, 69, 98, 132, 158, 148, 158, 23, 172, 22, 224, 190, 22, 104, 142, 21, 107, 92, 241, 94, 9, 140, 98, 124, 0, 86, 169]]

/-- Model of `MerkleTree::root`: `root_with_ctx` applied to the hardcoded table. -/
def MerkleTree.root (t : MerkleTree) : Except Error Hash :=
  t.root_with_ctx MerkleTree.zero_hashes

/-- Model of `MerkleTree::branch_root`: recompute a root from a leaf, a proof vector
(missing entries default to zero bytes, like `unwrap_or`), and an index whose
bit `i` selects the side at level `i`. -/
def MerkleTree.branch_root (item : Hash) (branch : List Hash) (index : Nat) : Hash :=
  (List.range 32).foldl
    (fun current i =>
      let next := (branch.get? i).getD zero32
      if (index >>> i) &&& 1 = 1 then commit next current
      else commit current next)
    item

/-- Model of `Contract::get_tree`: read storage, defaulting to the empty tree. -/
def Contract.get_tree (storage : Option MerkleTree) : MerkleTree :=
  storage.getD ⟨[], 0⟩

/-- Model of `Contract::insert`: load the tree, insert, save on success.  A failed
call traps before `env.storage().set`, leaving storage unchanged. -/
def Contract.insert (storage : Option MerkleTree) (node : Hash) :
    InsertResult × Option MerkleTree :=
  match (Contract.get_tree storage).insert node with
  | .ok t => (.ok t, some t)
  | r => (r, storage)

/-- Model of `Contract::get_root`: load the tree and compute its root; storage is
never written. -/
def Contract.get_root (storage : Option MerkleTree) :
    Except Error Hash × Option MerkleTree :=
  ((Contract.get_tree storage).root, storage)

/-! ### Reference definitions (from the specification text) -/

/-- The canonical empty-subtree hash of height `i`:
`zh 0` is 32 zero bytes and `zh (i+1) = commit (zh i) (zh i)`. -/
def zh : Nat → Hash
  | 0 => zero32
  | i + 1 => commit (zh i) (zh i)

/-- Modelled from the spec: the root of the explicitly constructed full
binary tree of height `h` whose leaves are the given list extended with
zero-byte leaves.  Height 0 is the leaf itself; height `h+1` splits into two
height-`h` subtrees of `2^h` leaf positions each, combined with `commit`. -/
def referenceRoot : Nat → List Hash → Hash
  | 0, leaves => leaves.headD zero32
  | h + 1, leaves =>
      commit (referenceRoot h (leaves.take (2 ^ h)))
        (referenceRoot h (leaves.drop (2 ^ h)))

/-- The `2^i` leaf positions of the `k`-th height-`i` subtree of the
reference tree: positions `k * 2^i ..< (k+1) * 2^i` of the leaf list. -/
def leafBlock (L : List Hash) (i k : Nat) : List Hash :=
  (L.drop (k * 2 ^ i)).take (2 ^ i)

/-- Modelled from the spec: the sibling path of leaf `index` in the
reference tree over `leaves` — at level `j` the sibling is the height-`j`
subtree whose leaf block index is `(index / 2^j) ^^^ 1`. -/
def siblingPath (leaves : List Hash) (index : Nat) : List Hash :=
  (List.range 32).map fun j =>
    referenceRoot j (leafBlock leaves j ((index / 2 ^ j) ^^^ 1))

/-- Modelled from the spec (§4.5): `current = leaf`; at each level `i` the
sibling is `proof[i]` when present, else 32 zero bytes, and bit `i` of
`index` chooses the side; `branchRootSpec leaf proof index n` is `current`
after the first `n` levels. -/
def branchRootSpec (leaf : Hash) (proof : List Hash) (index : Nat) : Nat → Hash
  | 0 => leaf
  | i + 1 =>
    let current := branchRootSpec leaf proof index i
    let sibling := (proof.get? i).getD zero32
    if index.testBit i then commit sibling current else commit current sibling

/-- The first `n` iterations of the `root_with_ctx` loop. -/
def rootAcc (count : Nat) (branch zeroes : List Hash) (n : Nat) : Hash :=
  (List.range n).foldl
    (fun current i =>
      let next := (branch.get? i).getD zero32
      if (count >>> i) &&& 1 = 1 then commit next current
      else commit current ((zeroes.get? i).getD zero32))
    zero32

/-- The tree state that sequential insertion of the leaf list `L` should
reach: the counter is the number of leaves, the branch vector holds one slot
per bit position below the counter width, and every slot at a set bit of the
counter caches the root of the most recent completed subtree of that
height. -/
def Models (L : List Hash) (t : MerkleTree) : Prop :=
  t.count = L.length ∧
  (∀ i, i < t.branch.length ↔ 2 ^ i ≤ L.length) ∧
  ∀ i, L.length / 2 ^ i % 2 = 1 →
    t.branch.get? i =
      some (referenceRoot i (leafBlock L i (L.length / 2 ^ (i + 1) * 2)))

/-- The freshly created tree. -/
def emptyTree : MerkleTree := ⟨[], 0⟩

/-- Sequential insertion of a list of leaves; `none` when some call does not
return normally. -/
def insertList (t : MerkleTree) : List Hash → Option MerkleTree
  | [] => some t
  | l :: ls =>
    match t.insert l with
    | .ok t' => insertList t' ls
    | _ => none

/-- The trees reachable from the freshly created tree by successful calls to
`MerkleTree::insert`. -/
inductive Reachable : MerkleTree → Prop where
  | empty : Reachable ⟨[], 0⟩
  | step {t t' : MerkleTree} {node : Hash} :
      Reachable t → t.insert node = .ok t' → Reachable t'

/-! ### The zero-hash table -/

theorem zero_hashes_length : MerkleTree.zero_hashes.length = 32 := by rfl

set_option maxRecDepth 100000 in
set_option maxHeartbeats 4000000 in
theorem zero_hashes_chain : ∀ i, i < 31 →
    commit (MerkleTree.zero_hashes.getD i zero32) (MerkleTree.zero_hashes.getD i zero32) =
      MerkleTree.zero_hashes.getD (i + 1) zero32 := by decide

theorem zh_eq_getD : ∀ i, i ≤ 31 → zh i = MerkleTree.zero_hashes.getD i zero32
  | 0, _ => by rfl
  | i + 1, h => by
      rw [zh, zh_eq_getD i (by omega), zero_hashes_chain i (by omega)]

theorem zero_hashes_getD (i : Nat) (h : i < 32) :
    (MerkleTree.zero_hashes.get? i).getD zero32 = zh i := by
  rw [zh_eq_getD i (by omega), List.getD_eq_getElem?_getD, List.get?_eq_getElem?]

/-- C3: the hardcoded zero-hash table satisfies the commit recursion: entry 0
is 32 zero bytes and entry `i` is the keccak256 hash of entry `i-1`
concatenated with itself, for every `i` in `1..=31`. -/
theorem zero_hash_table_self_consistent :
    MerkleTree.zero_hashes.getD 0 zero32 = List.replicate 32 0 ∧
    ∀ i, 1 ≤ i → i ≤ 31 →
      MerkleTree.zero_hashes.getD i zero32 =
        commit (MerkleTree.zero_hashes.getD (i - 1) zero32)
          (MerkleTree.zero_hashes.getD (i - 1) zero32) := by
  refine ⟨rfl, fun i h1 h31 => ?_⟩
  obtain ⟨j, rfl⟩ : ∃ j, i = j + 1 := ⟨i - 1, by omega⟩
  simpa using (zero_hashes_chain j (by omega)).symm

theorem zero_hash_table_self_consistent_witness :
    (1 : Nat) ≤ 1 ∧ (1 : Nat) ≤ 31 ∧
    MerkleTree.zero_hashes.getD 1 zero32 =
      commit (MerkleTree.zero_hashes.getD 0 zero32)
        (MerkleTree.zero_hashes.getD 0 zero32) :=
  ⟨le_rfl, by omega, zero_hash_table_self_consistent.2 1 le_rfl (by omega)⟩

/-! ### The root calculation -/

theorem rootAcc_succ (c : Nat) (b z : List Hash) (n : Nat) :
    rootAcc c b z (n + 1) =
      if (c >>> n) &&& 1 = 1 then commit ((b.get? n).getD zero32) (rootAcc c b z n)
      else commit (rootAcc c b z n) ((z.get? n).getD zero32) := by
  unfold rootAcc
  rw [List.range_succ, List.foldl_append]
  rfl

theorem rootLoop_eq_rootAcc (c : Nat) (b z : List Hash) :
    rootLoop c b z = rootAcc c b z 32 := rfl

theorem rootAcc_count_zero_nil : ∀ n, n ≤ 32 →
    rootAcc 0 [] MerkleTree.zero_hashes n = zh n := by
  intro n
  induction n with
  | zero => intro _; rfl
  | succ n ih =>
      intro h
      rw [rootAcc_succ, if_neg (by simp), zero_hashes_getD n (by omega), ih (by omega)]
      rfl

/-- C8: the root of the freshly created tree is `commit` of the last
zero-hash table entry with itself — the empty-subtree hash one level beyond
the table, which the commit recursion `zh` reaches at height 32. -/
theorem empty_tree_root :
    MerkleTree.root emptyTree =
      Except.ok (commit (MerkleTree.zero_hashes.getD 31 zero32)
        (MerkleTree.zero_hashes.getD 31 zero32)) := by
  have h : MerkleTree.root emptyTree = .ok (rootLoop 0 [] MerkleTree.zero_hashes) := by
    unfold MerkleTree.root MerkleTree.root_with_ctx
    rw [if_neg (by simp [zero_hashes_length, TREE_DEPTH, emptyTree])]
    rfl
  rw [h, rootLoop_eq_rootAcc, rootAcc_count_zero_nil 32 le_rfl, ← zh_eq_getD 31 (by omega)]
  rfl

/-! ### Purity and error behaviour of the entry points -/

/-- C9: `get_root` never writes storage, so two successive calls return the
same root and leave the stored tree byte-for-byte unchanged. -/
theorem root_pure_read (s : Option MerkleTree) :
    (Contract.get_root s).2 = s ∧
    (Contract.get_root (Contract.get_root s).2).1 = (Contract.get_root s).1 :=
  ⟨rfl, rfl⟩

/-- C4: `insert` fails with `MerkleTreeFull` exactly when the pre-call count
is at least `2^32 - 1`; the check precedes all mutation, so a rejected call
leaves the stored tree unchanged. -/
theorem insert_tree_full_iff (t : MerkleTree) (node : Hash) (s : Option MerkleTree) :
    (t.insert node = .err .MerkleTreeFull ↔ MAX_LEAVES ≤ t.count) ∧
    ((Contract.insert s node).1 = .err .MerkleTreeFull → (Contract.insert s node).2 = s) := by
  constructor
  · constructor
    · intro h
      rcases Nat.lt_or_ge t.count MAX_LEAVES with hc | hc
      · exfalso
        unfold MerkleTree.insert at h
        rw [if_neg (by omega)] at h
        split at h
        · exact absurd h (by simp)
        · split at h <;> simp at h
      · exact hc
    · intro h
      unfold MerkleTree.insert
      rw [if_pos (by omega)]
  · intro h
    cases he : (Contract.get_tree s).insert node with
    | ok t' => simp [Contract.insert, he] at h
    | err e => simp [Contract.insert, he]
    | trap => simp [Contract.insert, he]

theorem insert_tree_full_iff_witness :
    ((⟨[], MAX_LEAVES⟩ : MerkleTree).insert zero32 = .err .MerkleTreeFull) ∧
    (Contract.insert (some ⟨[], MAX_LEAVES⟩) zero32).2 = some ⟨[], MAX_LEAVES⟩ :=
  ⟨(insert_tree_full_iff ⟨[], MAX_LEAVES⟩ zero32 (some ⟨[], MAX_LEAVES⟩)).1.mpr le_rfl,
   (insert_tree_full_iff ⟨[], MAX_LEAVES⟩ zero32 (some ⟨[], MAX_LEAVES⟩)).2 (by decide)⟩

/-- C10: `branch_root` is a total function of its three arguments, and its
value only depends on the first 32 proof entries and the low 32 bits of the
index. -/
theorem branch_root_truncates (item : Hash) (proof : List Hash) (index : Nat) :
    MerkleTree.branch_root item proof index =
      MerkleTree.branch_root item (proof.take 32) (index % 2 ^ 32) := by
  unfold MerkleTree.branch_root
  apply List.foldl_ext
  intro acc i hi
  have hi32 : i < 32 := List.mem_range.mp hi
  have h1 : (proof.take 32).get? i = proof.get? i := by
    rw [List.get?_eq_getElem?, List.get?_eq_getElem?, List.getElem?_take, if_pos hi32]
  have h2 : ((index % 2 ^ 32) >>> i) &&& 1 = (index >>> i) &&& 1 := by
    rw [Nat.shiftRight_eq_div_pow, Nat.shiftRight_eq_div_pow, Nat.and_one_is_mod,
      Nat.and_one_is_mod, Nat.div_mod_eq_mod_mul_div (index % 2 ^ 32) (2 ^ i) 2,
      Nat.div_mod_eq_mod_mul_div index (2 ^ i) 2, Nat.mod_mod_of_dvd]
    calc (2 : Nat) ^ i * 2 = 2 ^ (i + 1) := (pow_succ 2 i).symm
    _ ∣ 2 ^ 32 := pow_dvd_pow 2 (by omega)
  rw [h1, h2]

theorem branch_root_eq_branchRootSpec (leaf : Hash) (proof : List Hash) (index : Nat) :
    MerkleTree.branch_root leaf proof index = branchRootSpec leaf proof index 32 := by
  suffices h : ∀ n, (List.range n).foldl
      (fun current i =>
        let next := (proof.get? i).getD zero32
        if (index >>> i) &&& 1 = 1 then commit next current
        else commit current next)
      leaf = branchRootSpec leaf proof index n from h 32
  intro n
  induction n with
  | zero => rfl
  | succ n ih =>
      rw [List.range_succ, List.foldl_append, ih]
      show (if (index >>> n) &&& 1 = 1 then _ else _) = _
      rw [branchRootSpec]
      simp only [Nat.testBit_to_div_mod, Nat.shiftRight_eq_div_pow, Nat.and_one_is_mod,
        decide_eq_true_eq]

/-- C5: `branch_root` computes exactly the level-by-level recursion of the
specification: start at the leaf value and at each level combine with the
proof entry (defaulting to zero bytes) on the side selected by the index
bit, returning the accumulator after the 32 levels. -/
theorem branch_root_eq_spec (leaf : Hash) (proof : List Hash) (index : Nat) :
    MerkleTree.branch_root leaf proof index = branchRootSpec leaf proof index 32 :=
  branch_root_eq_branchRootSpec leaf proof index

/-! ### Arithmetic and list helpers -/

theorem lt_div_succ_mul (n d : Nat) (hd : 0 < d) : n < (n / d + 1) * d := by
  have h1 := Nat.div_add_mod n d
  have h2 : n % d < d := Nat.mod_lt n hd
  have h3 : (n / d + 1) * d = d * (n / d) + d := by ring
  omega

theorem div_pow_succ_eq (n i : Nat) : n / 2 ^ i / 2 = n / 2 ^ (i + 1) := by
  rw [Nat.div_div_eq_div_mul, pow_succ]

theorem xor_one_even (m : Nat) : (2 * m) ^^^ 1 = 2 * m + 1 := by
  apply Nat.eq_of_testBit_eq
  intro i
  rw [Nat.testBit_xor]
  cases i with
  | zero => simp [Nat.testBit_zero, Nat.mul_add_mod, Nat.add_mul_mod_self_left]
  | succ i =>
      have h1 : Nat.testBit 1 (i + 1) = false := by
        simpa using (Nat.testBit_two_pow (n := 0) (m := i + 1))
      rw [h1, Nat.testBit_succ, Nat.testBit_succ]
      simp [Nat.mul_add_div, Nat.mul_div_cancel_left]

theorem xor_one_odd (m : Nat) : (2 * m + 1) ^^^ 1 = 2 * m := by
  apply Nat.eq_of_testBit_eq
  intro i
  rw [Nat.testBit_xor]
  cases i with
  | zero => simp [Nat.testBit_zero, Nat.mul_add_mod, Nat.add_mul_mod_self_left]
  | succ i =>
      have h1 : Nat.testBit 1 (i + 1) = false := by
        simpa using (Nat.testBit_two_pow (n := 0) (m := i + 1))
      rw [h1, Nat.testBit_succ, Nat.testBit_succ]
      have : (2 * m + 1) / 2 = m := by omega
      rw [this, Nat.mul_div_cancel_left m (by omega)]
      simp

/-! ### Reference-tree lemmas -/

theorem referenceRoot_nil : ∀ i, referenceRoot i [] = zh i
  | 0 => rfl
  | i + 1 => by
      rw [referenceRoot, List.take_nil, List.drop_nil, referenceRoot_nil i]
      rfl

theorem leafBlock_of_le (L : List Hash) (i k : Nat) (h : L.length ≤ k * 2 ^ i) :
    leafBlock L i k = [] := by
  unfold leafBlock
  rw [List.drop_eq_nil_of_le h, List.take_nil]

theorem referenceRoot_block_split (L : List Hash) (i k : Nat) :
    referenceRoot (i + 1) (leafBlock L (i + 1) k) =
      commit (referenceRoot i (leafBlock L i (2 * k)))
        (referenceRoot i (leafBlock L i (2 * k + 1))) := by
  have h1 : (leafBlock L (i + 1) k).take (2 ^ i) = leafBlock L i (2 * k) := by
    unfold leafBlock
    rw [List.take_take, min_eq_left (Nat.pow_le_pow_right (by omega) (by omega))]
    have e : k * 2 ^ (i + 1) = 2 * k * 2 ^ i := by rw [pow_succ]; ring
    rw [e]
  have h2 : (leafBlock L (i + 1) k).drop (2 ^ i) = leafBlock L i (2 * k + 1) := by
    unfold leafBlock
    rw [List.drop_take, List.drop_drop]
    have e1 : 2 ^ (i + 1) - 2 ^ i = 2 ^ i := by rw [pow_succ]; omega
    have e2 : k * 2 ^ (i + 1) + 2 ^ i = (2 * k + 1) * 2 ^ i := by rw [pow_succ]; ring
    rw [e1, e2]
  rw [referenceRoot, h1, h2]

theorem leafBlock_append (L L2 : List Hash) (i k : Nat)
    (h : (k + 1) * 2 ^ i ≤ L.length) :
    leafBlock (L ++ L2) i k = leafBlock L i k := by
  have hd : 0 < 2 ^ i := pow_pos (by omega) i
  have h' : k * 2 ^ i + 2 ^ i ≤ L.length := by rw [Nat.succ_mul] at h; omega
  have hk : k * 2 ^ i ≤ L.length := by omega
  have hlen2 : 2 ^ i ≤ (List.drop (k * 2 ^ i) L).length := by
    rw [List.length_drop]; omega
  unfold leafBlock
  rw [List.drop_append_of_le_length hk, List.take_append_of_le_length hlen2]

/-! ### Root reconstruction from the modelled state -/

theorem rootAcc_models (L : List Hash) (t : MerkleTree) (hc : t.count = L.length)
    (hb : ∀ i, L.length / 2 ^ i % 2 = 1 →
      t.branch.get? i =
        some (referenceRoot i (leafBlock L i (L.length / 2 ^ (i + 1) * 2)))) :
    ∀ i, i ≤ 32 →
      rootAcc t.count t.branch MerkleTree.zero_hashes i =
        referenceRoot i (leafBlock L i (L.length / 2 ^ i)) := by
  intro i
  induction i with
  | zero =>
      intro _
      have h0 : leafBlock L 0 (L.length / 2 ^ 0) = [] :=
        leafBlock_of_le _ _ _ (by simp)
      rw [h0]
      rfl
  | succ i ih =>
      intro h
      rw [hc] at ih
      have hp : 0 < 2 ^ i := pow_pos (by omega) i
      have hdd : L.length / 2 ^ i / 2 = L.length / 2 ^ (i + 1) := div_pow_succ_eq _ i
      rw [rootAcc_succ, hc, Nat.shiftRight_eq_div_pow, Nat.and_one_is_mod,
        referenceRoot_block_split L i (L.length / 2 ^ (i + 1))]
      by_cases hbit : L.length / 2 ^ i % 2 = 1
      · rw [if_pos hbit, hb i hbit, Option.getD_some, ih (by omega)]
        have e1 : L.length / 2 ^ (i + 1) * 2 = 2 * (L.length / 2 ^ (i + 1)) :=
          mul_comm _ _
        have e2 : L.length / 2 ^ i = 2 * (L.length / 2 ^ (i + 1)) + 1 := by omega
        rw [e1, e2]
      · rw [if_neg hbit, ih (by omega), zero_hashes_getD i (by omega)]
        have e2 : L.length / 2 ^ i = 2 * (L.length / 2 ^ (i + 1)) := by omega
        have hnil : leafBlock L i (2 * (L.length / 2 ^ (i + 1)) + 1) = [] := by
          apply leafBlock_of_le
          have hlt := lt_div_succ_mul L.length (2 ^ i) hp
          have e3 : (2 * (L.length / 2 ^ (i + 1)) + 1) * 2 ^ i =
              (L.length / 2 ^ i + 1) * 2 ^ i := by rw [e2]
          omega
        rw [hnil, referenceRoot_nil, e2]

theorem root_models (L : List Hash) (t : MerkleTree) (hM : Models L t)
    (hlen : L.length < 2 ^ 32) : t.root = Except.ok (referenceRoot 32 L) := by
  obtain ⟨hc, hl, hb⟩ := hM
  have hble : t.branch.length ≤ TREE_DEPTH := by
    by_contra hcon
    have h2 := (hl 32).mp (by unfold TREE_DEPTH at hcon; omega)
    omega
  unfold MerkleTree.root MerkleTree.root_with_ctx
  rw [if_neg (not_not_intro ⟨hble, zero_hashes_length⟩)]
  rw [rootLoop_eq_rootAcc, rootAcc_models L t hc hb 32 le_rfl]
  have h0 : L.length / 2 ^ 32 = 0 := Nat.div_eq_of_lt hlen
  rw [h0]
  have hLB : leafBlock L 32 0 = L := by
    unfold leafBlock
    rw [Nat.zero_mul, List.drop_zero, List.take_of_length_le (by omega)]
  rw [hLB]

/-! ### The insertion loop -/

theorem get?_some_lt {l : List Hash} {i : Nat} {a : Hash} (h : l.get? i = some a) :
    i < l.length := by
  by_contra hc
  rw [List.get?_eq_none.mpr (by omega)] at h
  simp at h

theorem div_mod_two_eq_zero_of_mod_pow (N i j : Nat) (hmod : N % 2 ^ i = 0)
    (hj : j < i) : N / 2 ^ j % 2 = 0 := by
  have hdvd : 2 ^ (j + 1) ∣ 2 ^ i := pow_dvd_pow 2 (by omega)
  have h1 : N % 2 ^ (j + 1) = 0 := by
    rw [← Nat.mod_mod_of_dvd N hdvd, hmod, Nat.zero_mod]
  rw [Nat.div_mod_eq_mod_mul_div, ← pow_succ, h1, Nat.zero_div]

theorem insertLoopAux_run (L : List Hash) (x : Hash) (branch : List Hash)
    (hb : ∀ j, L.length / 2 ^ j % 2 = 1 →
      branch.get? j = some (referenceRoot j (leafBlock L j (L.length / 2 ^ (j + 1) * 2))))
    (hl : ∀ j, j < branch.length ↔ 2 ^ j ≤ L.length)
    (hN32 : L.length + 1 < 2 ^ 32) :
    ∀ fuel i carry, fuel + i = 32 →
      (L.length + 1) % 2 ^ i = 0 →
      carry = referenceRoot i (leafBlock (L ++ [x]) i ((L.length + 1) / 2 ^ i - 1)) →
      ∃ branch',
        insertLoopAux branch fuel carry ((L.length + 1) / 2 ^ i) i = some branch' ∧
        (∀ j, (L.length + 1) / 2 ^ j % 2 = 1 →
          branch'.get? j =
            some (referenceRoot j
              (leafBlock (L ++ [x]) j ((L.length + 1) / 2 ^ (j + 1) * 2)))) ∧
        (∀ j, j < branch'.length ↔ 2 ^ j ≤ L.length + 1) := by
  intro fuel
  induction fuel with
  | zero =>
      intro i carry hfi hmod _
      exfalso
      have hi : i = 32 := by omega
      subst hi
      rw [Nat.mod_eq_of_lt hN32] at hmod
      omega
  | succ fuel ih =>
      intro i carry hfi hmod hcarry
      have hp : 0 < 2 ^ i := pow_pos (by omega) i
      have hNpos : 0 < L.length + 1 := by omega
      have hNge : 2 ^ i ≤ L.length + 1 :=
        Nat.le_of_dvd hNpos (Nat.dvd_of_mod_eq_zero hmod)
      have hdd : (L.length + 1) / 2 ^ i / 2 = (L.length + 1) / 2 ^ (i + 1) :=
        div_pow_succ_eq _ i
      have hszpos : 1 ≤ (L.length + 1) / 2 ^ i := (Nat.one_le_div_iff hp).mpr hNge
      by_cases hbit : (L.length + 1) / 2 ^ i % 2 = 1
      · -- bit `i` of the new count is set: the loop stores and returns here
        have hidx : (L.length + 1) / 2 ^ (i + 1) * 2 = (L.length + 1) / 2 ^ i - 1 := by
          omega
        have hvali : carry = referenceRoot i
            (leafBlock (L ++ [x]) i ((L.length + 1) / 2 ^ (i + 1) * 2)) := by
          rw [hidx]; exact hcarry
        have hNmodi1 : (L.length + 1) % 2 ^ (i + 1) = 2 ^ i := by
          rw [Nat.mod_pow_succ, hmod, hbit, Nat.mul_one, Nat.zero_add]
        have hnotdvd : ∀ k, i < k → ¬ 2 ^ k ∣ (L.length + 1) := by
          intro k hk hdvd
          have h1 : 2 ^ (i + 1) ∣ (L.length + 1) :=
            dvd_trans (pow_dvd_pow 2 (by omega)) hdvd
          have h2 := Nat.mod_eq_zero_of_dvd h1
          omega
        have hdivgt : ∀ k, i < k → L.length / 2 ^ k = (L.length + 1) / 2 ^ k := by
          intro k hk
          have hs := Nat.succ_div L.length (2 ^ k)
          rw [if_neg (hnotdvd k hk)] at hs
          omega
        cases hgi : branch.get? i with
        | some leaf =>
            have hlt : i < branch.length := get?_some_lt hgi
            refine ⟨branch.set i carry, ?_, ?_, ?_⟩
            · simp only [insertLoopAux]
              rw [if_pos hbit, hgi]
            · intro j hbitj
              rcases Nat.lt_trichotomy j i with hj | rfl | hj
              · exfalso
                have := div_mod_two_eq_zero_of_mod_pow (L.length + 1) i j hmod hj
                omega
              · rw [List.get?_eq_getElem?, List.getElem?_set_self hlt, hvali]
              · have hne : i ≠ j := by omega
                rw [List.get?_eq_getElem?, List.getElem?_set_ne hne,
                  ← List.get?_eq_getElem?]
                have hdj : L.length / 2 ^ j = (L.length + 1) / 2 ^ j := hdivgt j hj
                have hdj1 : L.length / 2 ^ (j + 1) = (L.length + 1) / 2 ^ (j + 1) :=
                  hdivgt (j + 1) (by omega)
                have hbn : L.length / 2 ^ j % 2 = 1 := by rw [hdj]; exact hbitj
                rw [hb j hbn, hdj1]
                have hddj : (L.length + 1) / 2 ^ j / 2 = (L.length + 1) / 2 ^ (j + 1) :=
                  div_pow_succ_eq _ j
                have e : (L.length + 1) / 2 ^ (j + 1) * 2 + 1 = (L.length + 1) / 2 ^ j := by
                  omega
                have hmul : (L.length + 1) / 2 ^ j * 2 ^ j ≤ L.length + 1 :=
                  Nat.div_mul_le_self _ _
                have hne2 : (L.length + 1) / 2 ^ j * 2 ^ j ≠ L.length + 1 := by
                  intro he
                  apply hnotdvd j hj
                  have hdv : 2 ^ j ∣ (L.length + 1) / 2 ^ j * 2 ^ j := dvd_mul_left _ _
                  rw [he] at hdv
                  exact hdv
                rw [leafBlock_append L [x] j _ (by rw [e]; omega)]
            · intro j
              rw [List.length_set]
              constructor
              · intro hjl
                have := (hl j).mp hjl
                omega
              · intro hle2
                by_cases hje : 2 ^ j ≤ L.length
                · exact (hl j).mpr hje
                · have hji : j ≤ i := by
                    by_contra hc2
                    exact hnotdvd j (by omega) ⟨1, by omega⟩
                  omega
        | none =>
            have hip : branch.length ≤ i := List.get?_eq_none.mp hgi
            have hieq : i = branch.length := by
              by_contra hne
              have h1 : L.length < 2 ^ branch.length := by
                by_contra hc2
                have := (hl branch.length).mpr (by omega)
                omega
              have h2 : 2 ^ (branch.length + 1) ≤ 2 ^ i :=
                Nat.pow_le_pow_right (by omega) (by omega)
              have h3 : 2 ^ (branch.length + 1) = 2 * 2 ^ branch.length := by
                rw [pow_succ]; ring
              omega
            have hNeq : L.length + 1 = 2 ^ i := by
              have h1 : L.length < 2 ^ i := by
                by_contra hc2
                have := (hl i).mpr (by omega)
                omega
              omega
            refine ⟨List.insertIdx i carry branch, ?_, ?_, ?_⟩
            · simp only [insertLoopAux]
              rw [if_pos hbit, hgi, if_pos (by omega)]
            · intro j hbitj
              rcases Nat.lt_trichotomy j i with hj | rfl | hj
              · exfalso
                have := div_mod_two_eq_zero_of_mod_pow (L.length + 1) i j hmod hj
                omega
              · rw [hieq, List.insertIdx_length_self, List.get?_eq_getElem?]
                have hconc := List.getElem?_concat_length branch carry
                rw [← hieq] at hconc ⊢
                rw [hconc, hvali]
              · exfalso
                have h0 : (L.length + 1) / 2 ^ j = 0 :=
                  Nat.div_eq_of_lt (by rw [hNeq]; exact Nat.pow_lt_pow_right (by omega) hj)
                omega
            · intro j
              rw [List.length_insertIdx i branch (by omega)]
              have hiff : 2 ^ j ≤ 2 ^ i ↔ j ≤ i :=
                Nat.pow_le_pow_iff_right (by omega)
              rw [← hNeq] at hiff
              omega
      · -- bit `i` of the new count is clear: combine with `branch[i]` and continue
        have hbit0 : (L.length + 1) / 2 ^ i % 2 = 0 := by omega
        have hdvd : 2 ^ i ∣ L.length + 1 := Nat.dvd_of_mod_eq_zero hmod
        have hni : L.length / 2 ^ i = (L.length + 1) / 2 ^ i - 1 := by
          have hs := Nat.succ_div L.length (2 ^ i)
          rw [if_pos hdvd] at hs
          omega
        have hbn : L.length / 2 ^ i % 2 = 1 := by omega
        have hleaf := hb i hbn
        have hmod1 : (L.length + 1) % 2 ^ (i + 1) = 0 := by
          rw [Nat.mod_pow_succ, hmod, hbit0, Nat.mul_zero, Nat.zero_add]
        have hdvd1 : 2 ^ (i + 1) ∣ L.length + 1 := Nat.dvd_of_mod_eq_zero hmod1
        have hni1 : L.length / 2 ^ (i + 1) = (L.length + 1) / 2 ^ (i + 1) - 1 := by
          have hs := Nat.succ_div L.length (2 ^ (i + 1))
          rw [if_pos hdvd1] at hs
          omega
        have hq1 : 1 ≤ (L.length + 1) / 2 ^ (i + 1) :=
          (Nat.one_le_div_iff (pow_pos (by omega) _)).mpr
            (Nat.le_of_dvd hNpos hdvd1)
        have hblockle : (L.length / 2 ^ (i + 1) * 2 + 1) * 2 ^ i ≤ L.length := by
          have e2a : L.length / 2 ^ (i + 1) * 2 + 1 = (L.length + 1) / 2 ^ i - 1 := by
            omega
          have e3 : (L.length + 1) / 2 ^ i * 2 ^ i = L.length + 1 :=
            Nat.div_mul_cancel hdvd
          have e4 : ((L.length + 1) / 2 ^ i - 1) * 2 ^ i =
              (L.length + 1) / 2 ^ i * 2 ^ i - 1 * 2 ^ i := Nat.sub_mul _ _ _
          rw [e2a, e4, e3, Nat.one_mul]
          omega
        have hcarry' : commit
            (referenceRoot i (leafBlock L i (L.length / 2 ^ (i + 1) * 2))) carry
            = referenceRoot (i + 1)
                (leafBlock (L ++ [x]) (i + 1) ((L.length + 1) / 2 ^ (i + 1) - 1)) := by
          rw [referenceRoot_block_split (L ++ [x]) i ((L.length + 1) / 2 ^ (i + 1) - 1)]
          have e1 : 2 * ((L.length + 1) / 2 ^ (i + 1) - 1) = L.length / 2 ^ (i + 1) * 2 := by
            omega
          have e5 : 2 * ((L.length + 1) / 2 ^ (i + 1) - 1) + 1 =
              (L.length + 1) / 2 ^ i - 1 := by
            omega
          rw [e5, e1, leafBlock_append L [x] i _ (by omega)]
          rw [hcarry]
        obtain ⟨branch', hrun, hinv, hlen'⟩ :=
          ih (i + 1)
            (commit (referenceRoot i (leafBlock L i (L.length / 2 ^ (i + 1) * 2))) carry)
            (by omega) hmod1 hcarry'
        refine ⟨branch', ?_, hinv, hlen'⟩
        simp only [insertLoopAux]
        rw [if_neg (by omega), hleaf, hdd]
        exact hrun

theorem insert_models (L : List Hash) (t : MerkleTree) (x : Hash)
    (hM : Models L t) (hcap : t.count < MAX_LEAVES) :
    ∃ t', t.insert x = .ok t' ∧ Models (L ++ [x]) t' := by
  obtain ⟨hc, hl, hb⟩ := hM
  have hn32 : L.length + 1 < 2 ^ 32 := by
    rw [hc] at hcap
    unfold MAX_LEAVES at hcap
    omega
  have hble : t.branch.length ≤ TREE_DEPTH := by
    by_contra hcon
    have h2 := (hl 32).mp (by unfold TREE_DEPTH at hcon; omega)
    omega
  have hcarry0 : x =
      referenceRoot 0 (leafBlock (L ++ [x]) 0 ((L.length + 1) / 2 ^ 0 - 1)) := by
    have e : (L.length + 1) / 2 ^ 0 - 1 = L.length := by simp
    rw [e]
    unfold leafBlock
    rw [pow_zero, Nat.mul_one, List.drop_append_of_le_length le_rfl, List.drop_length,
      List.nil_append]
    rfl
  obtain ⟨branch', hrun, hinv, hlen'⟩ :=
    insertLoopAux_run L x t.branch hb hl hn32 32 0 x (by omega)
      (by simp [Nat.mod_one]) hcarry0
  have hdiv0 : (L.length + 1) / 2 ^ 0 = L.length + 1 := by simp
  rw [hdiv0] at hrun
  refine ⟨⟨branch', t.count + 1⟩, ?_, ?_, ?_, ?_⟩
  · unfold MerkleTree.insert
    rw [if_neg (not_not_intro hcap), if_neg (not_not_intro hble)]
    unfold insertLoop
    rw [hc, hrun]
  · show t.count + 1 = (L ++ [x]).length
    rw [hc, List.length_append, List.length_cons, List.length_nil]
  · intro j
    show j < branch'.length ↔ 2 ^ j ≤ (L ++ [x]).length
    rw [List.length_append, List.length_cons, List.length_nil]
    exact hlen' j
  · intro j hbitj
    rw [List.length_append, List.length_cons, List.length_nil] at hbitj ⊢
    exact hinv j hbitj

theorem insert_ok {t : MerkleTree} {x : Hash} {t' : MerkleTree}
    (h : t.insert x = .ok t') : t.count < MAX_LEAVES ∧ t'.count = t.count + 1 := by
  unfold MerkleTree.insert at h
  by_cases h1 : t.count < MAX_LEAVES
  · rw [if_neg (not_not_intro h1)] at h
    refine ⟨h1, ?_⟩
    by_cases h2 : t.branch.length ≤ TREE_DEPTH
    · rw [if_neg (not_not_intro h2)] at h
      cases hlp : insertLoop t.branch x (t.count + 1) with
      | some b => rw [hlp] at h; cases h; rfl
      | none => rw [hlp] at h; simp at h
    · rw [if_pos h2] at h; simp at h
  · rw [if_pos h1] at h; simp at h

theorem insertList_count : ∀ (L : List Hash) (t t' : MerkleTree),
    insertList t L = some t' → t.count + L.length ≤ MAX_LEAVES ∨ L = [] := by
  intro L
  induction L with
  | nil => intro t t' _; right; rfl
  | cons y L ihL =>
      intro t t' h
      left
      rw [insertList] at h
      cases hins : t.insert y with
      | ok t1 =>
          rw [hins] at h
          have hk := insert_ok hins
          rcases ihL t1 t' h with hbnd | hnil
          · rw [List.length_cons]; omega
          · subst hnil
            rw [List.length_cons, List.length_nil]
            omega
      | err e => rw [hins] at h; simp at h
      | trap => rw [hins] at h; simp at h

theorem insertList_models_gen : ∀ (A : List Hash) (t : MerkleTree) (L0 : List Hash),
    Models L0 t → L0.length + A.length ≤ MAX_LEAVES →
    ∃ t', insertList t A = some t' ∧ Models (L0 ++ A) t' := by
  intro A
  induction A with
  | nil =>
      intro t L0 hM _
      exact ⟨t, rfl, by simpa using hM⟩
  | cons y A ihA =>
      intro t L0 hM hlen
      rw [List.length_cons] at hlen
      have hc0 := hM.1
      have hcap : t.count < MAX_LEAVES := by omega
      obtain ⟨t1, hok, hM1⟩ := insert_models L0 t y hM hcap
      obtain ⟨t', hrun, hM'⟩ := ihA t1 (L0 ++ [y]) hM1
        (by rw [List.length_append, List.length_cons, List.length_nil]; omega)
      refine ⟨t', ?_, ?_⟩
      · rw [insertList, hok]
        exact hrun
      · simpa using hM'

theorem models_emptyTree : Models [] emptyTree := by
  refine ⟨rfl, ?_, ?_⟩
  · intro i
    constructor
    · intro h
      simp [emptyTree] at h
    · intro h
      have := pow_pos (show 0 < 2 by omega) i
      simp only [List.length_nil] at h
      omega
  · intro i hbit
    simp at hbit

theorem reachable_models (t : MerkleTree) (h : Reachable t) :
    ∃ L, Models L t ∧ L.length ≤ MAX_LEAVES := by
  induction h with
  | empty => exact ⟨[], models_emptyTree, by simp⟩
  | step hr hok ih =>
      rename_i t0 t1 node
      obtain ⟨L, hM, hle⟩ := ih
      have hcap : t0.count < MAX_LEAVES := (insert_ok hok).1
      obtain ⟨t2, hok2, hM'⟩ := insert_models L t0 node hM hcap
      rw [hok] at hok2
      cases hok2
      refine ⟨L ++ [node], hM', ?_⟩
      have hc := hM.1
      rw [List.length_append, List.length_cons, List.length_nil]
      omega

/-- C6 (amended): every tree reachable by successful inserts from the empty
tree satisfies `len(branch) ≤ 32` and `count ≤ 2^32 - 1`.  (The bound
`count < 2^32 - 1` of the original claim fails: the tree reached after
`2^32 - 1` successful inserts has `count = 2^32 - 1`.) -/
theorem reachable_invariant (t : MerkleTree) (h : Reachable t) :
    t.branch.length ≤ TREE_DEPTH ∧ t.count ≤ MAX_LEAVES := by
  obtain ⟨L, hM, hle⟩ := reachable_models t h
  obtain ⟨hc, hl, _⟩ := hM
  constructor
  · by_contra hcon
    have h2 := (hl 32).mp (by unfold TREE_DEPTH at hcon; omega)
    unfold MAX_LEAVES at hle
    omega
  · rw [hc]
    exact hle

theorem reachable_invariant_witness :
    emptyTree.branch.length ≤ TREE_DEPTH ∧ emptyTree.count ≤ MAX_LEAVES :=
  reachable_invariant emptyTree Reachable.empty

theorem reachable_count (n : Nat) (hn : n ≤ MAX_LEAVES) :
    ∃ t, Reachable t ∧ t.count = n := by
  induction n with
  | zero => exact ⟨emptyTree, Reachable.empty, rfl⟩
  | succ n ihn =>
      obtain ⟨t, hr, hcnt⟩ := ihn (by omega)
      obtain ⟨L, hM, hle⟩ := reachable_models t hr
      obtain ⟨t', hok, hM'⟩ := insert_models L t zero32 hM (by omega)
      refine ⟨t', Reachable.step hr hok, ?_⟩
      rw [hM'.1, List.length_append, List.length_cons, List.length_nil]
      have hc := hM.1
      omega

/-- C6 counterexample: the original claim `count < 2^32 - 1` is violated by
the reachable tree whose counter has reached the capacity `2^32 - 1`. -/
theorem reachable_invariant_counterexample :
    ¬ ∀ t : MerkleTree, Reachable t → t.branch.length ≤ 32 ∧ t.count < 2 ^ 32 - 1 := by
  intro hclaim
  obtain ⟨t, hr, hcnt⟩ := reachable_count MAX_LEAVES le_rfl
  have h2 := (hclaim t hr).2
  unfold MAX_LEAVES at hcnt
  omega

/-- C7: on a reachable tree whose counter is below capacity, `insert`
returns normally from inside the loop — neither the `.expect` lookup, nor
the out-of-bounds `Vec::insert`, nor the post-loop `assert!(false)` can
fire. -/
theorem insert_no_panic (t : MerkleTree) (node : Hash) (hr : Reachable t)
    (hcap : t.count < 2 ^ 32 - 1) :
    ∃ t', t.insert node = .ok t' := by
  obtain ⟨L, hM, _⟩ := reachable_models t hr
  obtain ⟨t', hok, _⟩ := insert_models L t node hM (by unfold MAX_LEAVES; omega)
  exact ⟨t', hok⟩

theorem insert_no_panic_witness :
    emptyTree.count < 2 ^ 32 - 1 ∧ ∃ t', emptyTree.insert zero32 = .ok t' :=
  ⟨by norm_num [emptyTree],
   insert_no_panic emptyTree zero32 Reachable.empty (by norm_num [emptyTree])⟩

/-- C1: sequentially inserting up to `2^16` leaves into a fresh tree
succeeds, and `root` then returns exactly the root of the explicitly
constructed full binary tree of depth 32 over those leaves padded with
zero-byte leaves. -/
theorem insert_root_equals_reference (leaves : List Hash)
    (h : leaves.length ≤ 2 ^ 16) :
    ∃ t, insertList emptyTree leaves = some t ∧
      t.root = Except.ok (referenceRoot 32 leaves) := by
  have hle : leaves.length ≤ MAX_LEAVES := by
    unfold MAX_LEAVES
    have h16 : (2 : Nat) ^ 16 ≤ 2 ^ 32 - 1 := by norm_num
    omega
  obtain ⟨t, hrun, hM⟩ :=
    insertList_models_gen leaves emptyTree [] models_emptyTree
      (by rw [List.length_nil]; omega)
  rw [List.nil_append] at hM
  refine ⟨t, hrun, root_models leaves t hM ?_⟩
  unfold MAX_LEAVES at hle
  omega

theorem insert_root_equals_reference_witness :
    ∃ t, insertList emptyTree [] = some t ∧
      t.root = Except.ok (referenceRoot 32 []) :=
  insert_root_equals_reference [] (by norm_num)

/-! ### The sibling path of the reference tree -/

theorem siblingPath_get? (leaves : List Hash) (idx j : Nat) (hj : j < 32) :
    (siblingPath leaves idx).get? j =
      some (referenceRoot j (leafBlock leaves j ((idx / 2 ^ j) ^^^ 1))) := by
  unfold siblingPath
  rw [List.get?_eq_getElem?, List.getElem?_map, List.getElem?_range hj]
  rfl

theorem branchRootSpec_sibling (leaves : List Hash) (idx : Nat) (li : Hash)
    (hidx : leaves.get? idx = some li) :
    ∀ j, j ≤ 32 →
      branchRootSpec li (siblingPath leaves idx) idx j =
        referenceRoot j (leafBlock leaves j (idx / 2 ^ j)) := by
  intro j
  induction j with
  | zero =>
      intro _
      have hlt : idx < leaves.length := get?_some_lt hidx
      have hdrop : leaves.drop idx = leaves[idx] :: leaves.drop (idx + 1) :=
        List.drop_eq_getElem_cons hlt
      have hval : leaves[idx] = li := by
        have h1 : leaves[idx]? = some li := by
          rw [← List.get?_eq_getElem?]
          exact hidx
        rw [List.getElem?_eq_getElem hlt] at h1
        exact Option.some.inj h1
      show li = referenceRoot 0 (leafBlock leaves 0 (idx / 2 ^ 0))
      unfold leafBlock
      rw [pow_zero, Nat.div_one, Nat.mul_one, hdrop, hval]
      rfl
  | succ j ihj =>
      intro hj
      have hdd : idx / 2 ^ j / 2 = idx / 2 ^ (j + 1) := div_pow_succ_eq idx j
      rw [branchRootSpec]
      rw [ihj (by omega), siblingPath_get? leaves idx j (by omega)]
      simp only [Option.getD_some]
      rw [referenceRoot_block_split leaves j (idx / 2 ^ (j + 1))]
      by_cases hb : idx / 2 ^ j % 2 = 1
      · have htb : idx.testBit j = true := by
          rw [Nat.testBit_to_div_mod]
          exact decide_eq_true hb
        rw [if_pos htb]
        have hsplit : idx / 2 ^ j = 2 * (idx / 2 ^ (j + 1)) + 1 := by omega
        rw [hsplit, xor_one_odd]
      · have htb : idx.testBit j = false := by
          rw [Nat.testBit_to_div_mod]
          exact decide_eq_false hb
        rw [if_neg (by simp [htb])]
        have hsplit : idx / 2 ^ j = 2 * (idx / 2 ^ (j + 1)) := by omega
        rw [hsplit, xor_one_even]

theorem branch_root_sibling (leaves : List Hash) (idx : Nat) (li : Hash)
    (hidx : leaves.get? idx = some li) (hlen : leaves.length ≤ 2 ^ 32) :
    MerkleTree.branch_root li (siblingPath leaves idx) idx =
      referenceRoot 32 leaves := by
  rw [branch_root_eq_branchRootSpec,
    branchRootSpec_sibling leaves idx li hidx 32 le_rfl]
  have hlt : idx < leaves.length := get?_some_lt hidx
  have h0 : idx / 2 ^ 32 = 0 := Nat.div_eq_of_lt (by omega)
  rw [h0]
  unfold leafBlock
  rw [Nat.zero_mul, List.drop_zero, List.take_of_length_le hlen]

/-- C2: after successfully inserting a list of leaves into a fresh tree, the
root recomputed by `branch_root` from any inserted leaf, its sibling path in
the reference tree, and its index equals `root()` of the resulting tree. -/
theorem proof_round_trip (leaves : List Hash) (t : MerkleTree) (i : Nat) (li : Hash)
    (ht : insertList emptyTree leaves = some t) (hi : leaves.get? i = some li) :
    t.root = Except.ok (MerkleTree.branch_root li (siblingPath leaves i) i) := by
  have hlen : leaves.length ≤ MAX_LEAVES := by
    rcases insertList_count leaves emptyTree t ht with hB | hB
    · simpa [emptyTree] using hB
    · subst hB
      simp at hi
  obtain ⟨t2, hrun, hM⟩ :=
    insertList_models_gen leaves emptyTree [] models_emptyTree
      (by rw [List.length_nil]; omega)
  rw [ht] at hrun
  cases hrun
  rw [List.nil_append] at hM
  rw [root_models leaves t hM (by unfold MAX_LEAVES at hlen; omega)]
  rw [branch_root_sibling leaves i li hi (by unfold MAX_LEAVES at hlen; omega)]

theorem proof_round_trip_witness :
    insertList emptyTree [zero32] = some ⟨[zero32], 1⟩ ∧
    ([zero32] : List Hash).get? 0 = some zero32 ∧
    (⟨[zero32], 1⟩ : MerkleTree).root =
      Except.ok (MerkleTree.branch_root zero32 (siblingPath [zero32] 0) 0) := by
  have h1 : insertList emptyTree [zero32] = some ⟨[zero32], 1⟩ := by rfl
  exact ⟨h1, rfl, proof_round_trip [zero32] ⟨[zero32], 1⟩ 0 zero32 h1 rfl⟩

end MerkleSpec
